import Mathlib

set_option autoImplicit false

/- Shallow embedding of the GraphQL scraper (src/main.py, class GraphQLScraper).

   Modeling conventions:
   * Python strings are Lean `String` values; literal brace characters inside
     string literals are written with the escapes \x7b and \x7d.
   * Python dicts are insertion-ordered association lists; a missing key is
     `Option.none`.
   * JSON trees are the mutual inductive `Json`/`JObj`/`JArr` below.
   * Python `float` values are modeled as rationals; the scraper never
     branches on float rounding, so no IEEE behavior is needed.
   * The HTTP transport is an oracle parameter mapping a request
     (query text and variables) to the parsed JSON response. -/

/-- Embedding of Python list-prefix testing: first argument is the pattern,
second the text.  Used to model `str.startswith`. -/
def listLeadsWith : List Char → List Char → Bool
  | [], _ => true
  | _ :: _, [] => false
  | a :: as, b :: bs => a == b && listLeadsWith as bs

/-- Python `s.startswith(pre)`. -/
def pyStartswith (s pre : String) : Bool :=
  listLeadsWith pre.data s.data

/-- Contiguous-segment search on character lists (pattern, text). -/
def hasSeg (pat : List Char) : List Char → Bool
  | [] => listLeadsWith pat []
  | c :: ts => listLeadsWith pat (c :: ts) || hasSeg pat ts

/-- Python `needle in haystack` for strings (substring containment). -/
def pyIn (needle hay : String) : Bool :=
  hasSeg needle.data hay.data

/-- Python `s.lower()`, character by character; reduces by evaluation. -/
def pyLower (s : String) : String :=
  ⟨s.data.map Char.toLower⟩

/-- Python `sep.join(parts)`. -/
def joinWith (sep : String) : List String → String
  | [] => ""
  | [s] => s
  | s :: rest => s ++ sep ++ joinWith sep rest

/-- A GraphQL introspection type reference.  Named types are the leaves of a
wrapper chain; LIST and NON_NULL wrappers always carry an inner type, and only
named types carry a name, matching the introspection `TypeRef` shape used by
the scraper. -/
inductive TypeRef where
  | named (kind : String) (name : String)
  | list (ofType : TypeRef)
  | nonNull (ofType : TypeRef)
deriving DecidableEq

/-- Embedding of `_get_type_string`: renders a type reference back into
GraphQL type-string syntax. -/
def getTypeString : TypeRef → String
  | .nonNull t => getTypeString t ++ "!"
  | .list t => "[" ++ getTypeString t ++ "]"
  | .named _ n => n

/-- Embedding of `_get_base_type`: strips wrappers until the named type. -/
def getBaseType : TypeRef → TypeRef
  | .nonNull t => getBaseType t
  | .list t => getBaseType t
  | .named k n => .named k n

/-- Kind of the base type of a reference (`_get_base_type(...)['kind']`). -/
def baseKind (t : TypeRef) : String :=
  match getBaseType t with
  | .named k _ => k
  | _ => ""

/-- Name of the base type of a reference (`_get_base_type_name`). -/
def baseName (t : TypeRef) : String :=
  match getBaseType t with
  | .named _ n => n
  | _ => ""

/-- Embedding of `_is_required_type`. -/
def isRequiredType : TypeRef → Bool
  | .nonNull _ => true
  | _ => false

/-- Python values that appear in the variables maps: synthesized defaults and
pool-extracted replacements. -/
inductive Value where
  | int (n : Int)
  | float (q : ℚ)
  | str (s : String)
  | bool (b : Bool)
  | listv (vs : List Value)

/-- Embedding of `_generate_default_value`. -/
def generateDefaultValue : TypeRef → Value
  | .nonNull t => generateDefaultValue t
  | .named "SCALAR" name =>
      if name = "Int" then .int 0
      else if name = "Float" then .float 0
      else if name = "String" then .str "default"
      else if name = "Boolean" then .bool true
      else if name = "ID" then .str "1"
      else .str "default"
  | .list _ => .listv []
  | .named _ _ => .str "default"

/-- One argument definition of a schema field. -/
structure ArgDef where
  name : String
  type : TypeRef
  defaultValue : Option String := none
deriving DecidableEq

/-- One field definition of a schema type.  Introspection metadata the scraper
never reads (descriptions, deprecation flags) is omitted. -/
structure FieldDef where
  name : String
  args : List ArgDef
  type : TypeRef
deriving DecidableEq

/-- One named type definition from the introspection response.  The scraper
only reads `kind`, `name` and `fields`; a missing or null `fields` entry
behaves exactly like an empty list, so both are modeled as `[]`. -/
structure TypeDef where
  kind : String
  name : String
  fields : List FieldDef
deriving DecidableEq

/-- The schema snapshot (`data.__schema`): optional root-type names plus the
list of type definitions. -/
structure Schema where
  queryType : Option String
  mutationType : Option String
  subscriptionType : Option String
  types : List TypeDef
deriving DecidableEq

/-- First type definition with the given name, as in the linear search loops
of the source. -/
def findType (sch : Schema) (n : String) : Option TypeDef :=
  sch.types.find? (fun t => t.name == n)

/-- The leaf kinds that never get a selection set. -/
def isLeafKind (k : String) : Bool :=
  k == "SCALAR" || k == "ENUM"

/-- The `field_str` computed for one non-introspection field of
`_build_selection_set`, with the recursive sub-selection call abstracted as
`rec`: a bare name for leaf-typed fields, a sub-selection when the recursive
build produced one, else the first scalar/enum leaf of the sub-type if any,
else the bare name. -/
def fieldEntryWith (sch : Schema) (rec : TypeRef → String) (f : FieldDef) :
    String :=
  if isLeafKind (baseKind f.type) then f.name
  else
    if rec f.type ≠ "" then f.name ++ " \x7b " ++ rec f.type ++ " \x7d"
    else
      match findType sch (baseName f.type) with
      | none => f.name
      | some std =>
        if std.fields.isEmpty then f.name
        else
          match std.fields.find?
              (fun sf => !pyStartswith sf.name "__" && isLeafKind (baseKind sf.type)) with
          | none => f.name
          | some sf => f.name ++ " \x7b " ++ sf.name ++ " \x7d"

/-- The per-field strings accumulated by the `for field in type_def['fields']`
loop of `_build_selection_set`; introspection fields (`__`-prefixed) are
skipped. -/
def buildFieldsWith (sch : Schema) (rec : TypeRef → String) :
    List FieldDef → List String
  | [] => []
  | f :: rest =>
    if pyStartswith f.name "__" then buildFieldsWith sch rec rest
    else fieldEntryWith sch rec f :: buildFieldsWith sch rec rest

/-- Embedding of `_build_selection_set`, driven by the remaining fuel
`3 - depth`: the source stops as soon as `depth >= 3`, and each recursive
call runs at `depth + 1`, i.e. with one unit of fuel less. -/
def buildSelAux (sch : Schema) : Nat → TypeRef → String
  | 0, _ => ""
  | n + 1, fieldType =>
    if isLeafKind (baseKind fieldType) then ""
    else
      match findType sch (baseName fieldType) with
      | none => ""
      | some td =>
        if td.fields.isEmpty then ""
        else joinWith " " (buildFieldsWith sch (fun t2 => buildSelAux sch n t2) td.fields)

/-- Embedding of `_build_selection_set(field_type, depth)` with the depth
counter of the source. -/
def buildSelectionSet (sch : Schema) (fieldType : TypeRef) (depth : Nat) : String :=
  buildSelAux sch (3 - depth) fieldType

/-- The required (non-null) arguments of a field, in declaration order. -/
def requiredArgs (f : FieldDef) : List ArgDef :=
  f.args.filter (fun a => isRequiredType a.type)

/-- The `variable_definitions` list built by `_build_query`. -/
def variableDefinitions (f : FieldDef) : List String :=
  (requiredArgs f).map (fun a => "$var_" ++ a.name ++ ": " ++ getTypeString a.type)

/-- The `args_list` list built by `_build_query`. -/
def argsList (f : FieldDef) : List String :=
  (requiredArgs f).map (fun a => a.name ++ ": $var_" ++ a.name)

/-- The `variables` dict built by `_build_query`: one synthesized default per
required argument, keyed `var_<name>`. -/
def queryVariables (f : FieldDef) : List (String × Value) :=
  (requiredArgs f).map (fun a => ("var_" ++ a.name, generateDefaultValue a.type))

/-- The selection-set element of `query_parts`: for non-leaf return types,
either the recursively built selection set or the `\x7b id \x7d` fallback. -/
def selectionPart (sch : Schema) (f : FieldDef) : List String :=
  if isLeafKind (baseKind f.type) then []
  else
    let sel := buildSelectionSet sch f.type 0
    if sel ≠ "" then ["\x7b " ++ sel ++ " \x7d"] else ["\x7b id \x7d"]

/-- The `query_parts` list of `_build_query`. -/
def queryParts (sch : Schema) (f : FieldDef) : List String :=
  f.name ::
    ((if (argsList f).isEmpty then []
      else ["(" ++ joinWith ", " (argsList f) ++ ")"])
      ++ selectionPart sch f)

/-- Embedding of `_build_query`: the operation text and its variables map. -/
def buildQuery (sch : Schema) (f : FieldDef) (operationType : String) :
    String × List (String × Value) :=
  let queryBody := joinWith " " (queryParts sch f)
  let text :=
    if (variableDefinitions f).isEmpty then
      operationType ++ " \x7b " ++ queryBody ++ " \x7d"
    else
      operationType ++ "(" ++ joinWith ", " (variableDefinitions f) ++ ") \x7b "
        ++ queryBody ++ " \x7d"
  (text, queryVariables f)

/- ---------------------------------------------------------------------------
   JSON trees and parameter extraction
   ------------------------------------------------------------------------ -/

mutual

/-- JSON-like Python data as produced by `response.json()`.  Scalar leaves
keep their Python runtime type; `float` leaves are never bucketed by the
scraper, so their numeric payload is a rational. -/
inductive Json where
  | str (s : String)
  | int (n : Int)
  | bool (b : Bool)
  | float (q : ℚ)
  | null
  | obj (fields : JObj)
  | arr (items : JArr)

/-- Insertion-ordered JSON object entries. -/
inductive JObj where
  | nil
  | cons (key : String) (value : Json) (rest : JObj)

/-- JSON array items. -/
inductive JArr where
  | nil
  | cons (head : Json) (tail : JArr)

end

/-- Python `isinstance(v, str)`. -/
def isinstStr : Json → Bool
  | .str _ => true
  | _ => false

/-- Python `isinstance(v, int)`.  In Python, `bool` is a subclass of `int`,
so boolean leaves also satisfy this test. -/
def isinstInt : Json → Bool
  | .int _ => true
  | .bool _ => true
  | _ => false

/-- Python `isinstance(v, bool)`. -/
def isinstBool : Json → Bool
  | .bool _ => true
  | _ => false

/-- The string payload of a value known to be a string. -/
def asStr : Json → String
  | .str s => s
  | _ => ""

/-- The numeric identity of a value that passed `isinstance(v, int)`.  Python
list membership compares with `==`, under which `True == 1` and `False == 0`,
so booleans reaching the int bucket behave exactly like their numeric
identity; the model stores that identity. -/
def asInt : Json → Int
  | .int n => n
  | .bool b => if b then 1 else 0
  | _ => 0

/-- Deduplicating append used for every pool bucket:
`if value not in bucket: bucket.append(value)`. -/
def addUnique {α : Type} [DecidableEq α] (l : List α) (v : α) : List α :=
  if v ∈ l then l else l ++ [v]

/-- The `parameter_values` pool.  The source creates each bucket lazily on
first insertion; a missing key and an empty list are indistinguishable to
every read (`get` truthiness, membership, indexing), so buckets are plain
lists here. -/
structure Pool where
  ids : List String := []
  usernames : List String := []
  strings : List String := []
  ints : List Int := []
  bools : List Bool := []
deriving DecidableEq

/-- The empty pool (`parameter_values = {}`). -/
def emptyPool : Pool := {}

/-- The per-entry classification of `_extract_parameters_from_result`,
mirroring its if/elif chain.  The final `isinstance(value, bool)` branch of
the source is unreachable: boolean leaves already satisfy the earlier
`isinstance(value, int)` test. -/
def classifyLeaf (key : String) (v : Json) (pv : Pool) : Pool :=
  if key = "id" && isinstStr v then
    { pv with ids := addUnique pv.ids (asStr v) }
  else if key = "username" && isinstStr v then
    { pv with usernames := addUnique pv.usernames (asStr v) }
  else if isinstStr v then
    { pv with strings := addUnique pv.strings (asStr v) }
  else if isinstInt v then
    { pv with ints := addUnique pv.ints (asInt v) }
  else if isinstBool v then
    { pv with bools := addUnique pv.bools (match v with | .bool b => b | _ => false) }
  else pv

mutual

/-- Embedding of `_extract_parameters_from_result`: scalar and null data is
ignored, dict entries are classified and then recursed into, list items are
recursed into. -/
def extract (d : Json) (pv : Pool) : Pool :=
  match d with
  | .obj kvs => extractObj kvs pv
  | .arr xs => extractArr xs pv
  | _ => pv

/-- The `for key, value in data.items()` loop: classify the value, then
recurse into it, then continue with the remaining entries. -/
def extractObj (kvs : JObj) (pv : Pool) : Pool :=
  match kvs with
  | .nil => pv
  | .cons k v rest => extractObj rest (extract v (classifyLeaf k v pv))

/-- The `for item in data` loop over JSON arrays. -/
def extractArr (xs : JArr) (pv : Pool) : Pool :=
  match xs with
  | .nil => pv
  | .cons x tail => extractArr tail (extract x pv)

end

/- ---------------------------------------------------------------------------
   Root types, operation planning
   ------------------------------------------------------------------------ -/

/-- One entry of the `root_types` dict of `get_root_types`: present when the
schema names that root type and its definition is found among the types. -/
def rootEntry (sch : Schema) (rootName : Option String) (label : String) :
    List (String × TypeDef) :=
  match rootName with
  | none => []
  | some n =>
    match findType sch n with
    | none => []
    | some td => [(label, td)]

/-- Embedding of `get_root_types`: the insertion-ordered dict keyed
`Query` / `Mutation` / `Subscription`. -/
def getRootTypes (sch : Schema) : List (String × TypeDef) :=
  rootEntry sch sch.queryType "Query"
    ++ rootEntry sch sch.mutationType "Mutation"
    ++ rootEntry sch sch.subscriptionType "Subscription"

/-- A planned operation: the text and the variables map of `_build_query`. -/
abbrev Op := String × List (String × Value)

/-- Embedding of `generate_queries_for_type`: one operation per
non-introspection field; the source keeps an operation only when its text is
truthy (it always is, but the check is kept). -/
def genQueriesForType (sch : Schema) (td : TypeDef) (operationType : String) :
    List Op :=
  (td.fields.filter (fun f => !pyStartswith f.name "__")).filterMap
    (fun f =>
      let qv := buildQuery sch f operationType
      if qv.1 = "" then none else some qv)

/-- Embedding of `generate_all_queries`: iterate the root-types dict in
insertion order, lowercasing the dict key into the operation keyword. -/
def generateAllQueries (sch : Schema) : List Op :=
  (getRootTypes sch).foldl
    (fun acc p => acc ++ genQueriesForType sch p.2 (pyLower p.1)) []

/-- The operations planned from the mutation root type. -/
def mutationOps (sch : Schema) : List Op :=
  ((rootEntry sch sch.mutationType "Mutation").map
    (fun p => genQueriesForType sch p.2 (pyLower p.1))).flatten

/-- The operations planned from the subscription root type. -/
def subscriptionOps (sch : Schema) : List Op :=
  ((rootEntry sch sch.subscriptionType "Subscription").map
    (fun p => genQueriesForType sch p.2 (pyLower p.1))).flatten

/- ---------------------------------------------------------------------------
   Two-pass execution
   ------------------------------------------------------------------------ -/

/-- First value stored under a key of a JSON object, if any
(Python `result.get(key)` / `key in result`). -/
def lookupObj (kvs : JObj) (key : String) : Option Json :=
  match kvs with
  | .nil => none
  | .cons k v rest => if k = key then some v else lookupObj rest key

/-- Python `result.get(key)` on a parsed response; non-dict responses have no
keys. -/
def getKey (d : Json) (key : String) : Option Json :=
  match d with
  | .obj kvs => lookupObj kvs key
  | _ => none

/-- One entry of the aggregated result set (the per-operation record dicts of
`scrape_everything`). -/
structure Record where
  query : String
  vars : List (String × Value)
  result : Json
  success : Bool
  errors : Option Json
  error : Option Json

/-- The record built for one executed operation, from the transport
response: success means the response has neither an `errors` nor an `error`
key. -/
def execRecord (oracle : String → List (String × Value) → Json)
    (q : String) (vars : List (String × Value)) : Record :=
  let result := oracle q vars
  { query := q
    vars := vars
    result := result
    success := !(getKey result "errors").isSome && !(getKey result "error").isSome
    errors := getKey result "errors"
    error := getKey result "error" }

/-- The placeholder record for a skipped mutation (step 5 of
`scrape_everything`). -/
def skipRecord (op : Op) : Record :=
  { query := op.1
    vars := op.2
    result := .obj (.cons "skipped" (.bool true)
      (.cons "message" (.str "Mutations are not executed") .nil))
    success := false
    errors := some (.arr (.cons (.str "Mutation skipped - not executed for safety") .nil))
    error := none }

/-- Pool accumulation after one first-pass execution: extract from the
response `data` when the execution succeeded and the response carries data. -/
def poolStep (pv : Pool) (r : Record) : Pool :=
  if r.success then
    match getKey r.result "data" with
    | some d => extract d pv
    | none => pv
  else pv

/-- The pool gathered over the whole first pass. -/
def pass1Pool (records : List Record) : Pool :=
  records.foldl poolStep emptyPool

/-- The replacement chosen for one variable in the second pass, mirroring the
`value_found` cascade of `scrape_everything`.  Bucket reads model
`parameter_values.get(...)` truthiness and `[0]` indexing. -/
def fillValue (varName : String) (varValue : Value) (pv : Pool) : Value :=
  let found : Option Value :=
    if pyIn "id" (pyLower varName) && !pv.ids.isEmpty then
      some (.str (pv.ids.headD ""))
    else if pyIn "username" (pyLower varName) && !pv.usernames.isEmpty then
      some (.str (pv.usernames.headD ""))
    else if !pv.strings.isEmpty then some (.str (pv.strings.headD ""))
    else if !pv.ints.isEmpty then some (.int (pv.ints.headD 0))
    else if !pv.bools.isEmpty then some (.bool (pv.bools.headD false))
    else none
  match found with
  | some v => v
  | none => varValue

/-- The `filled_variables` dict of the second pass. -/
def fillVariables (vars : List (String × Value)) (pv : Pool) :
    List (String × Value) :=
  vars.map (fun nv => (nv.1, fillValue nv.1 nv.2 pv))

/-- Count of successful records (`len(successful_queries)`). -/
def countSuccess (results : List Record) : Nat :=
  (results.filter (fun r => r.success)).length

/-- The coverage number of step 7 of `scrape_everything`:
`(successes / total) * 100`, and 0 when nothing was planned. -/
def analyzeResults (results : List Record) (allQueries : List Op) : ℚ :=
  if allQueries.isEmpty then 0
  else ((countSuccess results : ℚ) / (allQueries.length : ℚ)) * 100

/-- The observable outcome of one run: every transport invocation made, the
aggregated records, and the summary numbers returned by
`scrape_everything`. -/
structure RunOutput where
  transmitted : List Op
  totalQueries : Nat
  successful : Nat
  failed : Nat
  skippedMutations : Nat
  coverage : ℚ
  results : List Record

/-- The `mutations` partition of step 2 of `scrape_everything`. -/
def mutationsOf (sch : Schema) : List Op :=
  (generateAllQueries sch).filter (fun op => pyStartswith op.1 "mutation")

/-- The `queries` partition of step 2 of `scrape_everything`. -/
def queriesOf (sch : Schema) : List Op :=
  (generateAllQueries sch).filter (fun op => !pyStartswith op.1 "mutation")

/-- The queries executed by the first pass (`if not variables`). -/
def passOneOf (sch : Schema) : List Op :=
  (queriesOf sch).filter (fun qv => qv.2.isEmpty)

/-- The queries executed by the second pass (`if variables`). -/
def passTwoOf (sch : Schema) : List Op :=
  (queriesOf sch).filter (fun qv => !qv.2.isEmpty)

/-- The first-pass records (step 3 of `scrape_everything`). -/
def firstPassResultsOf (sch : Schema)
    (oracle : String → List (String × Value) → Json) : List Record :=
  (passOneOf sch).map (fun qv => execRecord oracle qv.1 qv.2)

/-- The pool accumulated while the first pass runs.  Extraction has no effect
on execution, only on the pool read by the second pass, so the interleaved
loop is modeled as a fold over the first-pass records. -/
def runPoolOf (sch : Schema)
    (oracle : String → List (String × Value) → Json) : Pool :=
  pass1Pool (firstPassResultsOf sch oracle)

/-- The second-pass records (step 4 of `scrape_everything`). -/
def secondPassResultsOf (sch : Schema)
    (oracle : String → List (String × Value) → Json) : List Record :=
  (passTwoOf sch).map
    (fun qv => execRecord oracle qv.1 (fillVariables qv.2 (runPoolOf sch oracle)))

/-- The never-executed mutation placeholders (step 5). -/
def mutationResultsOf (sch : Schema) : List Record :=
  (mutationsOf sch).map skipRecord

/-- The combined result set (step 6). -/
def resultsOf (sch : Schema)
    (oracle : String → List (String × Value) → Json) : List Record :=
  firstPassResultsOf sch oracle ++ secondPassResultsOf sch oracle
    ++ mutationResultsOf sch

/-- Every transport invocation of a run, in order: each first-pass execution
with its (empty) variables, then each second-pass execution with its filled
variables. -/
def transmittedOf (sch : Schema)
    (oracle : String → List (String × Value) → Json) : List Op :=
  (passOneOf sch).map (fun qv => (qv.1, qv.2))
    ++ (passTwoOf sch).map
      (fun qv => (qv.1, fillVariables qv.2 (runPoolOf sch oracle)))

/-- Embedding of steps 2-7 of `scrape_everything`, after a successful schema
fetch. -/
def runScrape (sch : Schema)
    (oracle : String → List (String × Value) → Json) : RunOutput :=
  { transmitted := transmittedOf sch oracle
    totalQueries := (queriesOf sch ++ mutationsOf sch).length
    successful := countSuccess (resultsOf sch oracle)
    failed := ((resultsOf sch oracle).filter (fun r => !r.success)).length
    skippedMutations := (mutationsOf sch).length
    coverage := analyzeResults (resultsOf sch oracle) (queriesOf sch ++ mutationsOf sch)
    results := resultsOf sch oracle }

/-- The possible outcomes of the introspection call, as seen by
`fetch_schema`: a transport failure, a body that is not JSON, or a parsed
body with an optional top-level `errors` array and the schema payload. -/
inductive FetchResp where
  | httpError (e : String)
  | badJson (e : String)
  | body (errors : Option Json) (schema : Schema)

/-- Embedding of `fetch_schema`: any transport failure, malformed JSON, or
top-level `errors` array raises, which aborts the run. -/
def fetchSchema : FetchResp → Except String Schema
  | .httpError e => .error ("HTTP error: " ++ e)
  | .badJson e => .error ("Invalid JSON response: " ++ e)
  | .body (some _) _ => .error "GraphQL errors in introspection response"
  | .body none sch => .ok sch

/-- Embedding of `scrape_everything`: fetch the schema, then run both passes;
a schema-fetch failure aborts with no records at all. -/
def scrapeEverything (fr : FetchResp)
    (oracle : String → List (String × Value) → Json) :
    Except String RunOutput :=
  match fetchSchema fr with
  | .error e => .error e
  | .ok sch => .ok (runScrape sch oracle)

/- ---------------------------------------------------------------------------
   Extraction characterized as a fold over classified leaf occurrences
   ------------------------------------------------------------------------ -/

/-- One classified leaf occurrence: which bucket it targets and the stored
value. -/
inductive Entry where
  | id (s : String)
  | username (s : String)
  | plainStr (s : String)
  | intv (n : Int)
  | boolv (b : Bool)
deriving DecidableEq

/-- The bucket decision of `classifyLeaf` as data. -/
def entryOf (key : String) (v : Json) : Option Entry :=
  if key = "id" && isinstStr v then some (.id (asStr v))
  else if key = "username" && isinstStr v then some (.username (asStr v))
  else if isinstStr v then some (.plainStr (asStr v))
  else if isinstInt v then some (.intv (asInt v))
  else if isinstBool v then
    some (.boolv (match v with | .bool b => b | _ => false))
  else none

/-- Inserting one classified occurrence into its bucket. -/
def applyEntry (pv : Pool) (e : Entry) : Pool :=
  match e with
  | .id s => { pv with ids := addUnique pv.ids s }
  | .username s => { pv with usernames := addUnique pv.usernames s }
  | .plainStr s => { pv with strings := addUnique pv.strings s }
  | .intv n => { pv with ints := addUnique pv.ints n }
  | .boolv b => { pv with bools := addUnique pv.bools b }

theorem classifyLeaf_eq_entry (key : String) (v : Json) (pv : Pool) :
    classifyLeaf key v pv =
      match entryOf key v with
      | none => pv
      | some e => applyEntry pv e := by
  cases v <;> simp only [classifyLeaf, entryOf, isinstStr, isinstInt, isinstBool,
    Bool.and_true, Bool.and_false] <;> split_ifs <;> rfl

mutual

/-- All classified leaf occurrences of a JSON tree, in traversal order. -/
def entries (d : Json) : List Entry :=
  match d with
  | .obj kvs => entriesObj kvs
  | .arr xs => entriesArr xs
  | _ => []

/-- Occurrences contributed by the entries of an object. -/
def entriesObj (kvs : JObj) : List Entry :=
  match kvs with
  | .nil => []
  | .cons k v rest => (entryOf k v).toList ++ entries v ++ entriesObj rest

/-- Occurrences contributed by the items of an array. -/
def entriesArr (xs : JArr) : List Entry :=
  match xs with
  | .nil => []
  | .cons x tail => entries x ++ entriesArr tail

end

mutual

theorem extract_eq_fold (d : Json) (pv : Pool) :
    extract d pv = (entries d).foldl applyEntry pv := by
  cases d with
  | obj kvs => simpa [extract, entries] using extractObj_eq_fold kvs pv
  | arr xs => simpa [extract, entries] using extractArr_eq_fold xs pv
  | str s => simp [extract, entries]
  | int n => simp [extract, entries]
  | bool b => simp [extract, entries]
  | float q => simp [extract, entries]
  | null => simp [extract, entries]

theorem extractObj_eq_fold (kvs : JObj) (pv : Pool) :
    extractObj kvs pv = (entriesObj kvs).foldl applyEntry pv := by
  cases kvs with
  | nil => simp [extractObj, entriesObj]
  | cons k v rest =>
    rw [show extractObj (.cons k v rest) pv
        = extractObj rest (extract v (classifyLeaf k v pv)) from rfl,
      show entriesObj (.cons k v rest)
        = (entryOf k v).toList ++ entries v ++ entriesObj rest from rfl]
    rw [extractObj_eq_fold rest, extract_eq_fold v, classifyLeaf_eq_entry]
    rw [List.foldl_append, List.foldl_append]
    cases entryOf k v <;> simp

theorem extractArr_eq_fold (xs : JArr) (pv : Pool) :
    extractArr xs pv = (entriesArr xs).foldl applyEntry pv := by
  cases xs with
  | nil => simp [extractArr, entriesArr]
  | cons x tail =>
    rw [show extractArr (.cons x tail) pv = extractArr tail (extract x pv) from rfl,
      show entriesArr (.cons x tail) = entries x ++ entriesArr tail from rfl]
    rw [extractArr_eq_fold tail, extract_eq_fold x, List.foldl_append]

end

/-- Membership of an occurrence in its bucket. -/
def memEntry (e : Entry) (pv : Pool) : Prop :=
  match e with
  | .id s => s ∈ pv.ids
  | .username s => s ∈ pv.usernames
  | .plainStr s => s ∈ pv.strings
  | .intv n => n ∈ pv.ints
  | .boolv b => b ∈ pv.bools

theorem mem_addUnique_self {α : Type} [DecidableEq α] (l : List α) (v : α) :
    v ∈ addUnique l v := by
  unfold addUnique; split
  · assumption
  · simp

theorem mem_addUnique_of {α : Type} [DecidableEq α] {l : List α} {v : α}
    (w : α) (h : v ∈ l) : v ∈ addUnique l w := by
  unfold addUnique; split
  · exact h
  · exact List.mem_append_left _ h

theorem addUnique_of_mem {α : Type} [DecidableEq α] {l : List α} {v : α}
    (h : v ∈ l) : addUnique l v = l :=
  if_pos h

theorem memEntry_applyEntry_self (pv : Pool) (e : Entry) :
    memEntry e (applyEntry pv e) := by
  cases e <;> simp [memEntry, applyEntry, mem_addUnique_self]

theorem memEntry_applyEntry_mono {pv : Pool} {e : Entry} (e2 : Entry)
    (h : memEntry e pv) : memEntry e (applyEntry pv e2) := by
  cases e <;> cases e2 <;>
    simp only [memEntry, applyEntry] at h ⊢ <;>
    first
      | exact h
      | exact mem_addUnique_of _ h

theorem applyEntry_of_memEntry {pv : Pool} {e : Entry} (h : memEntry e pv) :
    applyEntry pv e = pv := by
  cases e <;> simp only [memEntry] at h <;>
    simp [applyEntry, addUnique_of_mem h]

theorem memEntry_foldl_mono {pv : Pool} {e : Entry} (es : List Entry)
    (h : memEntry e pv) : memEntry e (es.foldl applyEntry pv) := by
  induction es generalizing pv with
  | nil => exact h
  | cons e2 rest ih => exact ih (memEntry_applyEntry_mono e2 h)

theorem memEntry_foldl_of_mem {pv : Pool} {e : Entry} {es : List Entry}
    (h : e ∈ es) : memEntry e (es.foldl applyEntry pv) := by
  induction es generalizing pv with
  | nil => cases h
  | cons e2 rest ih =>
    rcases List.mem_cons.mp h with h1 | h2
    · subst h1
      exact memEntry_foldl_mono rest (memEntry_applyEntry_self pv e)
    · exact ih h2

theorem foldl_applyEntry_of_all {pv : Pool} {es : List Entry}
    (h : ∀ e ∈ es, memEntry e pv) : es.foldl applyEntry pv = pv := by
  induction es with
  | nil => rfl
  | cons e rest ih =>
    have he : memEntry e pv := h e (List.mem_cons_self e rest)
    rw [List.foldl_cons, applyEntry_of_memEntry he]
    exact ih (fun e2 h2 => h e2 (List.mem_cons_of_mem e h2))

/-- All five buckets are duplicate-free. -/
def PoolNodup (pv : Pool) : Prop :=
  pv.ids.Nodup ∧ pv.usernames.Nodup ∧ pv.strings.Nodup ∧ pv.ints.Nodup
    ∧ pv.bools.Nodup

instance (pv : Pool) : Decidable (PoolNodup pv) := by
  unfold PoolNodup; infer_instance

theorem nodup_addUnique {α : Type} [DecidableEq α] {l : List α} (v : α)
    (h : l.Nodup) : (addUnique l v).Nodup := by
  unfold addUnique; split
  · exact h
  · next hv =>
    rw [List.nodup_append]
    exact ⟨h, List.nodup_singleton v, by simpa using hv⟩

theorem poolNodup_applyEntry {pv : Pool} (e : Entry) (h : PoolNodup pv) :
    PoolNodup (applyEntry pv e) := by
  obtain ⟨h1, h2, h3, h4, h5⟩ := h
  cases e <;>
    exact ⟨by first | exact nodup_addUnique _ h1 | exact h1,
      by first | exact nodup_addUnique _ h2 | exact h2,
      by first | exact nodup_addUnique _ h3 | exact h3,
      by first | exact nodup_addUnique _ h4 | exact h4,
      by first | exact nodup_addUnique _ h5 | exact h5⟩

theorem poolNodup_foldl {pv : Pool} (es : List Entry) (h : PoolNodup pv) :
    PoolNodup (es.foldl applyEntry pv) := by
  induction es generalizing pv with
  | nil => exact h
  | cons e rest ih => exact ih (poolNodup_applyEntry e h)

/-- Recognizer for bucket-`bools` occurrences. -/
def isBoolEntry : Entry → Bool
  | .boolv _ => true
  | _ => false

theorem entryOf_not_bool (key : String) (v : Json) {e : Entry}
    (h : entryOf key v = some e) : isBoolEntry e = false := by
  unfold entryOf at h
  split_ifs at h <;>
    first
      | (injection h with hx; subst hx; rfl)
      | (exfalso; cases v <;> simp_all [isinstStr, isinstInt, isinstBool])

mutual

theorem entries_not_bool (d : Json) :
    ∀ e ∈ entries d, isBoolEntry e = false := by
  cases d with
  | obj kvs => simpa [entries] using entriesObj_not_bool kvs
  | arr xs => simpa [entries] using entriesArr_not_bool xs
  | str s => simp [entries]
  | int n => simp [entries]
  | bool b => simp [entries]
  | float q => simp [entries]
  | null => simp [entries]

theorem entriesObj_not_bool (kvs : JObj) :
    ∀ e ∈ entriesObj kvs, isBoolEntry e = false := by
  cases kvs with
  | nil => simp [entriesObj]
  | cons k v rest =>
    intro e he
    rw [show entriesObj (.cons k v rest)
        = (entryOf k v).toList ++ entries v ++ entriesObj rest from rfl] at he
    rcases List.mem_append.mp he with he1 | he2
    · rcases List.mem_append.mp he1 with he3 | he4
      · rcases Option.mem_toList.mp he3 with h
        exact entryOf_not_bool k v h
      · exact entries_not_bool v e he4
    · exact entriesObj_not_bool rest e he2

theorem entriesArr_not_bool (xs : JArr) :
    ∀ e ∈ entriesArr xs, isBoolEntry e = false := by
  cases xs with
  | nil => simp [entriesArr]
  | cons x tail =>
    intro e he
    rw [show entriesArr (.cons x tail) = entries x ++ entriesArr tail from rfl] at he
    rcases List.mem_append.mp he with he1 | he2
    · exact entries_not_bool x e he1
    · exact entriesArr_not_bool tail e he2

end

theorem foldl_bools_eq {pv : Pool} {es : List Entry}
    (h : ∀ e ∈ es, isBoolEntry e = false) :
    (es.foldl applyEntry pv).bools = pv.bools := by
  induction es generalizing pv with
  | nil => rfl
  | cons e rest ih =>
    rw [List.foldl_cons]
    rw [ih (fun e2 h2 => h e2 (List.mem_cons_of_mem e h2))]
    have he := h e (List.mem_cons_self e rest)
    cases e <;> simp_all [isBoolEntry, applyEntry]

/-- A sample first-pass response body used to evaluate extraction on concrete
input. -/
def sampleResponse : Json :=
  .obj (.cons "user"
    (.obj (.cons "id" (.str "42")
      (.cons "username" (.str "alice")
        (.cons "age" (.int 30)
          (.cons "active" (.bool true) .nil)))))
    (.cons "tags" (.arr (.cons (.str "a") (.cons (.str "a") .nil))) .nil))

/-- Claim C9: extraction is idempotent on bucket contents — re-running
extraction of the same response against the resulting pool changes nothing —
and no bucket ever retains duplicate values (every bucket of a duplicate-free
pool stays duplicate-free). -/
theorem extract_idempotent_nodup :
    (∀ (d : Json) (pv : Pool), extract d (extract d pv) = extract d pv) ∧
    (∀ (d : Json) (pv : Pool), PoolNodup pv → PoolNodup (extract d pv)) := by
  constructor
  · intro d pv
    rw [extract_eq_fold d pv, extract_eq_fold d]
    exact foldl_applyEntry_of_all (fun e he => memEntry_foldl_of_mem he)
  · intro d pv h
    rw [extract_eq_fold]
    exact poolNodup_foldl _ h

theorem extract_idempotent_nodup_witness :
    extract sampleResponse (extract sampleResponse emptyPool)
        = extract sampleResponse emptyPool
      ∧ PoolNodup emptyPool
      ∧ PoolNodup (extract sampleResponse emptyPool) :=
  ⟨extract_idempotent_nodup.1 sampleResponse emptyPool, by decide,
    extract_idempotent_nodup.2 sampleResponse emptyPool (by decide)⟩

/-- Claim C3 (code bug evidence): boolean leaves never reach the bools
bucket.  Python treats bool as a subclass of int, the isinstance(value, int)
branch precedes the isinstance(value, bool) branch, and so every boolean leaf
is appended to ints (under its numeric identity); the bools bucket never
grows.  Concretely, extracting the response `\x7b"flag": true\x7d` into an
empty pool yields ints = [1] and bools = []. -/
theorem bool_leaf_lands_in_ints :
    (∀ (d : Json) (pv : Pool), (extract d pv).bools = pv.bools) ∧
    extract (.obj (.cons "flag" (.bool true) .nil)) emptyPool
      = { emptyPool with ints := [1] } := by
  constructor
  · intro d pv
    rw [extract_eq_fold]
    exact foldl_bools_eq (entries_not_bool d)
  · rfl

/- ---------------------------------------------------------------------------
   Claim C5: type-string rendering
   ------------------------------------------------------------------------ -/

/-- The wrapper markers of a type reference, outermost first. -/
inductive Wrapper where
  | nonNull
  | list
deriving DecidableEq

/-- Decomposition of a reference into its wrapper chain. -/
def wrappers : TypeRef → List Wrapper
  | .nonNull t => .nonNull :: wrappers t
  | .list t => .list :: wrappers t
  | .named _ _ => []

/-- Spec-side rendering of a wrapper chain in GraphQL syntax: a trailing `!`
for each NON_NULL marker, surrounding brackets for each LIST marker, composed
outward-in around the base type name. -/
def renderChain : List Wrapper → String → String
  | [], base => base
  | .nonNull :: ws, base => renderChain ws base ++ "!"
  | .list :: ws, base => "[" ++ renderChain ws base ++ "]"

/-- Claim C5: the type-string renderer reproduces the wrapper chain in
GraphQL syntax for every finite chain, and in particular renders
NON_NULL(LIST(NON_NULL(SCALAR ID))) as [ID!]!. -/
theorem typeString_renders_chain :
    (∀ t : TypeRef, getTypeString t = renderChain (wrappers t) (baseName t)) ∧
    getTypeString (.nonNull (.list (.nonNull (.named "SCALAR" "ID")))) = "[ID!]!" := by
  constructor
  · intro t
    induction t with
    | named k n => rfl
    | list t ih =>
      rw [show getTypeString (TypeRef.list t) = "[" ++ getTypeString t ++ "]" from rfl,
        show wrappers (TypeRef.list t) = .list :: wrappers t from rfl,
        show baseName (TypeRef.list t) = baseName t from rfl, renderChain, ih]
    | nonNull t ih =>
      rw [show getTypeString (TypeRef.nonNull t) = getTypeString t ++ "!" from rfl,
        show wrappers (TypeRef.nonNull t) = .nonNull :: wrappers t from rfl,
        show baseName (TypeRef.nonNull t) = baseName t from rfl, renderChain, ih]
  · rfl

/- ---------------------------------------------------------------------------
   Claim C4: second-pass substitution priority
   ------------------------------------------------------------------------ -/

/-- Spec-side statement of the substitution priority of claim C4, written
directly from the claim wording: the ids bucket when the lowercased variable
name contains id, else the usernames bucket when it contains username, else
the first available of strings, ints, bools, else the originally synthesized
value when no pool entry applies. -/
def specChosenValue (varName : String) (orig : Value) (pv : Pool) : Value :=
  if pyIn "id" (pyLower varName) && !pv.ids.isEmpty then .str (pv.ids.headD "")
  else if pyIn "username" (pyLower varName) && !pv.usernames.isEmpty then
    .str (pv.usernames.headD "")
  else if !pv.strings.isEmpty then .str (pv.strings.headD "")
  else if !pv.ints.isEmpty then .int (pv.ints.headD 0)
  else if !pv.bools.isEmpty then .bool (pv.bools.headD false)
  else orig

/-- Claim C4: the pass-two replacement value always follows the documented
priority, shown on the code path itself and on two concrete pools (an id hit
and an empty-pool fallback to the synthesized value). -/
theorem fillValue_follows_priority :
    (∀ (n : String) (v : Value) (pv : Pool),
      fillValue n v pv = specChosenValue n v pv) ∧
    fillValue "var_userId" (.str "1") { emptyPool with ids := ["42"] } = .str "42" ∧
    fillValue "var_userId" (.str "1") emptyPool = .str "1" := by
  refine ⟨?_, rfl, rfl⟩
  intro n v pv
  simp only [fillValue, specChosenValue]
  split_ifs <;> rfl

/- ---------------------------------------------------------------------------
   Claim C7: coverage arithmetic
   ------------------------------------------------------------------------ -/

/-- A plain executed-query record with the given success flag, used for
concrete coverage scenarios. -/
def passRecord (b : Bool) : Record :=
  { query := "query \x7b q \x7d"
    vars := []
    result := .obj .nil
    success := b
    errors := none
    error := none }

/-- Ten planned operations: a concrete denominator for the coverage claim. -/
def sampleOps : List Op :=
  List.replicate 10 (("query \x7b q \x7d", []) : Op)

/-- Ten records: six successes, three failures, one skipped mutation. -/
def sampleResults : List Record :=
  List.replicate 6 (passRecord true) ++ List.replicate 3 (passRecord false)
    ++ [skipRecord ("mutation \x7b m \x7d", [])]

/-- Claim C7: coverage is successes divided by total planned operations times
100; skipped-mutation records are always unsuccessful, so they extend the
denominator but never the numerator; zero planned operations give coverage 0;
and the 6-of-10 scenario reports exactly 60. -/
theorem coverage_arithmetic :
    (∀ (res : List Record) (ops : List Op), ops ≠ [] →
      analyzeResults res ops = ((countSuccess res : ℚ) / (ops.length : ℚ)) * 100) ∧
    (∀ res : List Record, analyzeResults res [] = 0) ∧
    (∀ op : Op, (skipRecord op).success = false) ∧
    (∀ (rs : List Record) (ms : List Op),
      countSuccess (rs ++ ms.map skipRecord) = countSuccess rs) ∧
    analyzeResults sampleResults sampleOps = 60 := by
  refine ⟨?_, fun res => rfl, fun op => rfl, ?_, by norm_num [analyzeResults,
    sampleResults, sampleOps, countSuccess, passRecord, skipRecord]⟩
  · intro res ops h
    unfold analyzeResults
    rw [if_neg]
    simpa using h
  · intro rs ms
    have hskip : (ms.map skipRecord).filter (fun r => r.success) = [] := by
      induction ms with
      | nil => rfl
      | cons m rest ih => simpa [skipRecord] using ih
    unfold countSuccess
    rw [List.filter_append, hskip, List.append_nil]

theorem coverage_arithmetic_witness :
    sampleOps ≠ [] ∧
    analyzeResults sampleResults sampleOps
      = ((countSuccess sampleResults : ℚ) / (sampleOps.length : ℚ)) * 100 :=
  ⟨by simp [sampleOps], coverage_arithmetic.1 sampleResults sampleOps (by simp [sampleOps])⟩

/- ---------------------------------------------------------------------------
   Segment (substring) occurrence machinery
   ------------------------------------------------------------------------ -/

/-- The pattern occurs as a contiguous segment of the list. -/
def SegIn (pat l : List Char) : Prop :=
  ∃ a b, l = a ++ pat ++ b

theorem segIn_self (pat : List Char) : SegIn pat pat :=
  ⟨[], [], by simp⟩

theorem segIn_extend_left {pat y : List Char} (x : List Char)
    (h : SegIn pat y) : SegIn pat (x ++ y) := by
  obtain ⟨a, b, rfl⟩ := h
  exact ⟨x ++ a, b, by simp⟩

theorem segIn_extend_right {pat y : List Char} (z : List Char)
    (h : SegIn pat y) : SegIn pat (y ++ z) := by
  obtain ⟨a, b, rfl⟩ := h
  exact ⟨a, b ++ z, by simp⟩

/-- A member of a joined list occurs as a segment of the join. -/
theorem segIn_of_mem_joinWith {sep : String} {s : String} {parts : List String}
    (h : s ∈ parts) : SegIn s.data (joinWith sep parts).data := by
  induction parts with
  | nil => cases h
  | cons x rest ih =>
    rcases List.mem_cons.mp h with h1 | h2
    · subst h1
      cases rest with
      | nil => exact segIn_self s.data
      | cons y ys =>
        rw [show joinWith sep (s :: y :: ys) = s ++ sep ++ joinWith sep (y :: ys) from rfl,
          String.data_append, String.data_append, List.append_assoc]
        exact segIn_extend_right _ (segIn_self s.data)
    · cases rest with
      | nil => cases h2
      | cons y ys =>
        rw [show joinWith sep (x :: y :: ys) = x ++ sep ++ joinWith sep (y :: ys) from rfl,
          String.data_append, String.data_append]
        exact segIn_extend_left _ (ih h2)

/-- A segment of the middle string of a three-part concatenation is a segment
of the whole. -/
theorem segIn_str_append {pat : List Char} (x m y : String)
    (h : SegIn pat m.data) : SegIn pat (x ++ m ++ y).data := by
  rw [String.data_append, String.data_append]
  exact segIn_extend_right _ (segIn_extend_left _ h)

/-- Unfolded form of the operation text of `_build_query`. -/
theorem buildQuery_fst (sch : Schema) (f : FieldDef) (t : String) :
    (buildQuery sch f t).1 =
      if (variableDefinitions f).isEmpty then
        t ++ " \x7b " ++ joinWith " " (queryParts sch f) ++ " \x7d"
      else
        t ++ "(" ++ joinWith ", " (variableDefinitions f) ++ ") \x7b "
          ++ joinWith " " (queryParts sch f) ++ " \x7d" := rfl

/-- The variables map of `_build_query`. -/
theorem buildQuery_snd (sch : Schema) (f : FieldDef) (t : String) :
    (buildQuery sch f t).2 = queryVariables f := rfl

/- ---------------------------------------------------------------------------
   Claim C10: the fallback selection set
   ------------------------------------------------------------------------ -/

/-- Claim C10: whenever a planned field has a non-leaf return type and the
recursive selection-set build yields the empty string, the planner appends
the fixed fallback part to `query_parts`, and that fallback selection set
occurs verbatim in the final operation text — so such an operation never
ships without a selection set. -/
theorem fallback_id_selection (sch : Schema) (f : FieldDef) (t : String)
    (h1 : isLeafKind (baseKind f.type) = false)
    (h2 : buildSelectionSet sch f.type 0 = "") :
    "\x7b id \x7d" ∈ queryParts sch f ∧
    SegIn "\x7b id \x7d".data ((buildQuery sch f t).1).data := by
  have hsel : selectionPart sch f = ["\x7b id \x7d"] := by
    unfold selectionPart
    simp [h1, h2]
  have hmem : "\x7b id \x7d" ∈ queryParts sch f := by
    unfold queryParts
    rw [hsel]
    simp
  refine ⟨hmem, ?_⟩
  have hb : SegIn "\x7b id \x7d".data (joinWith " " (queryParts sch f)).data :=
    segIn_of_mem_joinWith hmem
  rw [buildQuery_fst]
  split_ifs
  · exact segIn_str_append _ _ _ hb
  · exact segIn_str_append _ _ _ hb

/-- A field returning an object type that has no definition anywhere. -/
def fieldC10 : FieldDef :=
  { name := "f", args := [], type := .named "OBJECT" "Missing" }

/-- A schema whose one query field returns an object type that has no
definition at all (hence an empty recursive selection set, and certainly no
id field). -/
def schemaC10 : Schema :=
  { queryType := some "Query"
    mutationType := none
    subscriptionType := none
    types := [{ kind := "OBJECT", name := "Query", fields := [fieldC10] }] }

theorem fallback_id_selection_witness :
    isLeafKind (baseKind fieldC10.type) = false ∧
    buildSelectionSet schemaC10 fieldC10.type 0 = "" ∧
    ("\x7b id \x7d" ∈ queryParts schemaC10 fieldC10 ∧
      SegIn "\x7b id \x7d".data ((buildQuery schemaC10 fieldC10 "query").1).data) :=
  ⟨rfl, rfl, fallback_id_selection schemaC10 fieldC10 "query" rfl rfl⟩

/- ---------------------------------------------------------------------------
   Claim C2: argument binding style
   ------------------------------------------------------------------------ -/

/-- A required String argument. -/
def argC2 : ArgDef :=
  { name := "name", type := .nonNull (.named "SCALAR" "String") }

/-- A scalar-returning field with one required argument. -/
def fieldC2 : FieldDef :=
  { name := "field", args := [argC2], type := .named "SCALAR" "String" }

/-- A schema with no type definitions (irrelevant for scalar returns). -/
def schemaEmpty : Schema :=
  { queryType := some "Query", mutationType := none, subscriptionType := none
    types := [] }

/-- Claim C2 counterexample: for a field with one required String argument
the planner emits a declared GraphQL variable (`$var_name: String!`, argument
rendered `name: $var_name`, synthesized value in the separate variables map);
the operation text contains the variable sigil and no inlined quoted
literal. -/
theorem inline_literal_args_refuted :
    (buildQuery schemaEmpty fieldC2 "query").1
        = "query($var_name: String!) \x7b field (name: $var_name) \x7d" ∧
    Char.ofNat 36 ∈ ((buildQuery schemaEmpty fieldC2 "query").1).data ∧
    pyIn "\"default\"" (buildQuery schemaEmpty fieldC2 "query").1 = false ∧
    (buildQuery schemaEmpty fieldC2 "query").2 = [("var_name", Value.str "default")] :=
  ⟨rfl, by decide, by decide, rfl⟩

/-- Helper: a segment of a string is a segment after appending on the
right. -/
theorem segIn_data_ext_right {pat : List Char} {x : String} (y : String)
    (h : SegIn pat x.data) : SegIn pat (x ++ y).data := by
  rw [String.data_append]
  exact segIn_extend_right _ h

/-- Helper: a segment of a string is a segment after prepending on the
left. -/
theorem segIn_data_ext_left {pat : List Char} (x : String) {y : String}
    (h : SegIn pat y.data) : SegIn pat (x ++ y).data := by
  rw [String.data_append]
  exact segIn_extend_left _ h

/-- Segments nest transitively. -/
theorem segIn_trans {p q r : List Char} (h1 : SegIn p q) (h2 : SegIn q r) :
    SegIn p r := by
  obtain ⟨a, b, rfl⟩ := h1
  obtain ⟨c, d, rfl⟩ := h2
  exact ⟨c ++ a, b ++ d, by simp⟩

/-- Claim C2 as amended: every included required argument is bound through a
declared GraphQL variable `$var_<name>: <TypeString>` that occurs verbatim in
the operation text, referenced from the argument list as `<name>: $var_<name>`,
and its synthesized literal value lives in the separate variables map. -/
theorem required_args_use_variables (sch : Schema) (f : FieldDef) (t : String)
    (a : ArgDef) (ha : a ∈ f.args) (hreq : isRequiredType a.type = true) :
    (buildQuery sch f t).2
        = (requiredArgs f).map
            (fun a2 => ("var_" ++ a2.name, generateDefaultValue a2.type)) ∧
    SegIn ("$var_" ++ a.name ++ ": " ++ getTypeString a.type).data
      ((buildQuery sch f t).1).data ∧
    SegIn (a.name ++ ": $var_" ++ a.name).data ((buildQuery sch f t).1).data := by
  have hmemreq : a ∈ requiredArgs f := List.mem_filter.mpr ⟨ha, hreq⟩
  have hvd : ("$var_" ++ a.name ++ ": " ++ getTypeString a.type)
      ∈ variableDefinitions f := List.mem_map.mpr ⟨a, hmemreq, rfl⟩
  have hal : (a.name ++ ": $var_" ++ a.name) ∈ argsList f :=
    List.mem_map.mpr ⟨a, hmemreq, rfl⟩
  have hvne : (variableDefinitions f).isEmpty = false := by
    cases hv : variableDefinitions f with
    | nil => rw [hv] at hvd; cases hvd
    | cons x xs => rfl
  have hane : (argsList f).isEmpty = false := by
    cases hv2 : argsList f with
    | nil => rw [hv2] at hal; cases hal
    | cons x xs => rfl
  refine ⟨rfl, ?_, ?_⟩
  · rw [buildQuery_fst, if_neg (by rw [hvne]; exact Bool.false_ne_true)]
    exact segIn_data_ext_right _ (segIn_data_ext_right _
      (segIn_data_ext_right _ (segIn_data_ext_left _
        (segIn_of_mem_joinWith hvd))))
  · have hpart : ("(" ++ joinWith ", " (argsList f) ++ ")") ∈ queryParts sch f := by
      unfold queryParts
      rw [hane]
      exact List.mem_cons_of_mem _ (List.mem_append_left _ (by simp))
    have hinpart : SegIn (a.name ++ ": $var_" ++ a.name).data
        ("(" ++ joinWith ", " (argsList f) ++ ")").data :=
      segIn_data_ext_right _ (segIn_data_ext_left _ (segIn_of_mem_joinWith hal))
    have hinbody : SegIn (a.name ++ ": $var_" ++ a.name).data
        (joinWith " " (queryParts sch f)).data :=
      segIn_trans hinpart (segIn_of_mem_joinWith hpart)
    rw [buildQuery_fst]
    split_ifs
    · exact segIn_data_ext_right _ (segIn_data_ext_left _ hinbody)
    · exact segIn_data_ext_right _ (segIn_data_ext_left _ hinbody)

theorem required_args_use_variables_witness :
    (argC2 ∈ fieldC2.args ∧ isRequiredType argC2.type = true) ∧
    ((buildQuery schemaEmpty fieldC2 "query").2
        = (requiredArgs fieldC2).map
            (fun a2 => ("var_" ++ a2.name, generateDefaultValue a2.type)) ∧
      SegIn ("$var_" ++ argC2.name ++ ": " ++ getTypeString argC2.type).data
        ((buildQuery schemaEmpty fieldC2 "query").1).data ∧
      SegIn (argC2.name ++ ": $var_" ++ argC2.name).data
        ((buildQuery schemaEmpty fieldC2 "query").1).data) :=
  ⟨⟨by decide, rfl⟩,
    required_args_use_variables schemaEmpty fieldC2 "query" argC2 (by decide) rfl⟩

/- ---------------------------------------------------------------------------
   Claim C1: mutation / subscription handling
   ------------------------------------------------------------------------ -/

theorem leadsWith_append (xs ys : List Char) :
    listLeadsWith xs (xs ++ ys) = true := by
  induction xs with
  | nil => rfl
  | cons a as ih => simp [listLeadsWith, ih]

theorem pyStartswith_of_eq_append {s t r : String} (h : s = t ++ r) :
    pyStartswith s t = true := by
  subst h
  unfold pyStartswith
  rw [String.data_append]
  exact leadsWith_append t.data r.data

/-- Every planned operation text begins with its operation keyword. -/
theorem buildQuery_starts (sch : Schema) (f : FieldDef) (t : String) :
    pyStartswith (buildQuery sch f t).1 t = true := by
  rw [buildQuery_fst]
  split_ifs
  · exact pyStartswith_of_eq_append (by simp only [String.append_assoc]; rfl)
  · exact pyStartswith_of_eq_append (by simp only [String.append_assoc]; rfl)


/-- Any member of a generated per-type operation list is a built query. -/
theorem mem_genQueries {sch : Schema} {td : TypeDef} {t : String} {op : Op}
    (h : op ∈ genQueriesForType sch td t) : ∃ f, op = buildQuery sch f t := by
  unfold genQueriesForType at h
  rcases List.mem_filterMap.mp h with ⟨f, hf, hmap⟩
  by_cases hq : (buildQuery sch f t).1 = ""
  · rw [if_pos hq] at hmap; cases hmap
  · rw [if_neg hq] at hmap
    exact ⟨f, (Option.some_inj.mp hmap).symm⟩

/-- The mutation-root operation list is empty or one generated per-type
list. -/
theorem mutationOps_cases (sch : Schema) :
    mutationOps sch = []
      ∨ ∃ td, mutationOps sch = genQueriesForType sch td (pyLower "Mutation") := by
  unfold mutationOps rootEntry
  cases sch.mutationType with
  | none => exact Or.inl rfl
  | some n =>
    dsimp only
    cases findType sch n with
    | none => exact Or.inl rfl
    | some td => exact Or.inr ⟨td, by simp⟩

/-- Operations planned from the mutation root start with the mutation
keyword. -/
theorem mutationOps_startswith {sch : Schema} {op : Op}
    (h : op ∈ mutationOps sch) : pyStartswith op.1 "mutation" = true := by
  rcases mutationOps_cases sch with hc | ⟨td, hc⟩
  · rw [hc] at h; cases h
  · rw [hc] at h
    obtain ⟨f, rfl⟩ := mem_genQueries h
    exact buildQuery_starts sch f (pyLower "Mutation")

/-- Folding list-append over a list equals the flattened map. -/
theorem foldl_acc_append {α β : Type} (g : α → List β) (l : List α)
    (init : List β) :
    l.foldl (fun acc p => acc ++ g p) init = init ++ (l.map g).flatten := by
  induction l generalizing init with
  | nil => simp
  | cons x xs ih =>
    rw [List.foldl_cons, ih, List.map_cons, List.flatten_cons, List.append_assoc]

theorem generateAllQueries_eq (sch : Schema) :
    generateAllQueries sch
      = ((getRootTypes sch).map
          (fun p => genQueriesForType sch p.2 (pyLower p.1))).flatten := by
  unfold generateAllQueries
  rw [foldl_acc_append]
  rfl

/-- Mutation-root operations are among all planned operations. -/
theorem mutationOps_subset {sch : Schema} {op : Op}
    (h : op ∈ mutationOps sch) : op ∈ generateAllQueries sch := by
  rw [generateAllQueries_eq]
  unfold getRootTypes
  rw [List.map_append, List.map_append, List.flatten_append, List.flatten_append]
  unfold mutationOps at h
  exact List.mem_append.mpr (Or.inl (List.mem_append.mpr (Or.inr h)))

/-- Nothing the transport ever receives starts with the mutation keyword. -/
theorem transmitted_not_mutation (sch : Schema)
    (oracle : String → List (String × Value) → Json) :
    ∀ tv ∈ transmittedOf sch oracle, pyStartswith tv.1 "mutation" = false := by
  intro tv htv
  unfold transmittedOf at htv
  rcases List.mem_append.mp htv with h1 | h2
  · rcases List.mem_map.mp h1 with ⟨qv, hq, rfl⟩
    have hq2 : qv ∈ queriesOf sch := (List.mem_filter.mp hq).1
    have hq3 := (List.mem_filter.mp hq2).2
    simpa using hq3
  · rcases List.mem_map.mp h2 with ⟨qv, hq, rfl⟩
    have hq2 : qv ∈ queriesOf sch := (List.mem_filter.mp hq).1
    have hq3 := (List.mem_filter.mp hq2).2
    simpa using hq3

/-- Claim C1 as amended: every operation planned from the mutation root type
is recorded as a skipped placeholder (succeeded=false, fixed error message)
and its text is never handed to the transport; subscription-root operations
are not covered (see the counterexample: they are partitioned as queries and
transmitted). -/
theorem mutation_ops_skipped (sch : Schema)
    (oracle : String → List (String × Value) → Json) (op : Op)
    (hop : op ∈ mutationOps sch) :
    skipRecord op ∈ (runScrape sch oracle).results ∧
    ∀ tv ∈ (runScrape sch oracle).transmitted, tv.1 ≠ op.1 := by
  have hstart := mutationOps_startswith hop
  have hall := mutationOps_subset hop
  have hmut : op ∈ mutationsOf sch :=
    List.mem_filter.mpr ⟨hall, hstart⟩
  constructor
  · show skipRecord op ∈ resultsOf sch oracle
    unfold resultsOf
    exact List.mem_append.mpr (Or.inr
      (List.mem_map.mpr ⟨op, hmut, rfl⟩))
  · intro tv htv heq
    have hno := transmitted_not_mutation sch oracle tv htv
    rw [heq, hstart] at hno
    cases hno

/-- A transport oracle that always answers with a successful empty-data
response. -/
def oracle0 : String → List (String × Value) → Json :=
  fun _ _ => .obj (.cons "data" (.obj .nil) .nil)

/-- The one field of the mutation-only schema. -/
def fieldMut : FieldDef :=
  { name := "doIt", args := [], type := .named "SCALAR" "String" }

/-- A mutation-only schema: one mutation root field. -/
def schemaMut : Schema :=
  { queryType := none, mutationType := some "Mutation", subscriptionType := none
    types := [{ kind := "OBJECT", name := "Mutation", fields := [fieldMut] }] }

/-- The one operation planned from `schemaMut`. -/
def opMut : Op := ("mutation \x7b doIt \x7d", [])

theorem mutation_ops_skipped_witness :
    skipRecord opMut ∈ (runScrape schemaMut oracle0).results ∧
    ∀ tv ∈ (runScrape schemaMut oracle0).transmitted, tv.1 ≠ opMut.1 :=
  mutation_ops_skipped schemaMut oracle0 opMut
    (by rw [show mutationOps schemaMut = [opMut] from rfl]
        exact List.mem_singleton.mpr rfl)

/-- The one field of the subscription-only schema. -/
def fieldSub : FieldDef :=
  { name := "s", args := [], type := .named "SCALAR" "String" }

/-- A subscription-only schema: one subscription root field. -/
def schemaSub : Schema :=
  { queryType := none, mutationType := none
    subscriptionType := some "Subscription"
    types := [{ kind := "OBJECT", name := "Subscription", fields := [fieldSub] }] }

/-- Claim C1 counterexample: the operation planned from the subscription root
type IS handed to the transport (it lands in the queries partition because its
text does not start with the mutation keyword), and its record carries the
transport outcome (here succeeded=true, no skip message) instead of a
skipped-mutation placeholder. -/
theorem subscription_op_transmitted :
    subscriptionOps schemaSub = [("subscription \x7b s \x7d", [])] ∧
    (runScrape schemaSub oracle0).transmitted = [("subscription \x7b s \x7d", [])] ∧
    (runScrape schemaSub oracle0).results.map (fun r => r.success) = [true] ∧
    (runScrape schemaSub oracle0).results.map (fun r => r.errors.isSome) = [false] :=
  ⟨rfl, rfl, rfl, rfl⟩

/- ---------------------------------------------------------------------------
   Claim C8: abort on fetch failure, complete record set otherwise
   ------------------------------------------------------------------------ -/

theorem length_filter_split {α : Type} (p q : α → Bool)
    (hq : ∀ x, q x = !p x) (l : List α) :
    (l.filter p).length + (l.filter q).length = l.length := by
  induction l with
  | nil => rfl
  | cons x xs ih =>
    rw [List.filter_cons, List.filter_cons, hq x]
    cases hp : p x <;> simp <;> omega

/-- Claim C8: a transport failure, malformed JSON, or top-level errors array
during introspection aborts the run with an error carrying no records at all;
a successful fetch always yields exactly one record per planned operation
(skipped mutations included). -/
theorem run_aborts_or_full_records :
    (∀ (e : String) (oracle : String → List (String × Value) → Json),
      scrapeEverything (.httpError e) oracle = .error ("HTTP error: " ++ e)) ∧
    (∀ (e : String) (oracle : String → List (String × Value) → Json),
      scrapeEverything (.badJson e) oracle
        = .error ("Invalid JSON response: " ++ e)) ∧
    (∀ (errs : Json) (sch : Schema)
        (oracle : String → List (String × Value) → Json),
      scrapeEverything (.body (some errs) sch) oracle
        = .error "GraphQL errors in introspection response") ∧
    (∀ (sch : Schema) (oracle : String → List (String × Value) → Json)
        (out : RunOutput),
      scrapeEverything (.body none sch) oracle = .ok out →
      out.results.length = (generateAllQueries sch).length) := by
  refine ⟨fun e oracle => rfl, fun e oracle => rfl, fun errs sch oracle => rfl, ?_⟩
  intro sch oracle out h
  have h2 : (Except.ok (runScrape sch oracle) : Except String RunOutput)
      = .ok out := h
  injection h2 with h3
  subst h3
  show (resultsOf sch oracle).length = (generateAllQueries sch).length
  unfold resultsOf firstPassResultsOf secondPassResultsOf mutationResultsOf
  rw [List.length_append, List.length_append, List.length_map,
    List.length_map, List.length_map]
  unfold passOneOf passTwoOf
  rw [length_filter_split (fun qv : Op => qv.2.isEmpty)
    (fun qv : Op => !qv.2.isEmpty) (fun x => rfl) (queriesOf sch)]
  unfold queriesOf mutationsOf
  rw [Nat.add_comm]
  exact length_filter_split (fun op : Op => pyStartswith op.1 "mutation")
    (fun op : Op => !pyStartswith op.1 "mutation") (fun x => rfl)
    (generateAllQueries sch)

theorem run_aborts_or_full_records_witness :
    scrapeEverything (.body none schemaC10) oracle0
        = .ok (runScrape schemaC10 oracle0) ∧
    (runScrape schemaC10 oracle0).results.length
        = (generateAllQueries schemaC10).length :=
  ⟨rfl, run_aborts_or_full_records.2.2.2 schemaC10 oracle0
    (runScrape schemaC10 oracle0) rfl⟩

/- ---------------------------------------------------------------------------
   Claim C6: selection-set termination and absence of empty blocks
   ------------------------------------------------------------------------ -/

/-- Characters legal inside GraphQL names as far as the bracket analysis is
concerned: anything except braces and spaces. -/
def nameChar (c : Char) : Bool :=
  !(c == '\x7b' || c == '\x7d' || c == ' ')

/-- A nonempty name made only of name characters (every legal GraphQL name
qualifies). -/
def validName (s : String) : Bool :=
  !s.data.isEmpty && s.data.all nameChar

/-- All field names of all type definitions are valid names. -/
def validSchema (sch : Schema) : Bool :=
  sch.types.all (fun td => td.fields.all (fun f => validName f.name))

/-- Every opening brace is immediately followed by one space and then a name
character.  This single positional invariant rules out every empty block
`\x7b<spaces>\x7d`. -/
def bracesOk (l : List Char) : Prop :=
  ∀ i : Nat, l[i]? = some '\x7b' →
    l[i+1]? = some ' ' ∧ ∃ c, l[i+2]? = some c ∧ nameChar c = true

theorem bracesOk_append {p q : List Char} (hp : bracesOk p) (hq : bracesOk q) :
    bracesOk (p ++ q) := by
  intro i hi
  by_cases hlt : i < p.length
  · rw [List.getElem?_append_left hlt] at hi
    obtain ⟨h1, c, h2, h3⟩ := hp i hi
    have hi1 : i + 1 < p.length := by
      by_contra hcon
      rw [List.getElem?_eq_none (by omega)] at h1
      cases h1
    have hi2 : i + 2 < p.length := by
      by_contra hcon
      rw [List.getElem?_eq_none (by omega)] at h2
      cases h2
    refine ⟨?_, c, ?_, h3⟩
    · rw [List.getElem?_append_left hi1]; exact h1
    · rw [List.getElem?_append_left hi2]; exact h2
  · push_neg at hlt
    rw [List.getElem?_append_right hlt] at hi
    obtain ⟨h1, c, h2, h3⟩ := hq _ hi
    refine ⟨?_, c, ?_, h3⟩
    · rw [List.getElem?_append_right (by omega),
        show i + 1 - p.length = i - p.length + 1 from by omega]
      exact h1
    · rw [List.getElem?_append_right (by omega),
        show i + 2 - p.length = i - p.length + 2 from by omega]
      exact h2

theorem bracesOk_of_not_brace {l : List Char} (h : '\x7b' ∉ l) : bracesOk l := by
  intro i hi
  exfalso
  obtain ⟨hlt, heq⟩ := List.getElem?_eq_some.mp hi
  exact h (heq ▸ List.getElem_mem hlt)

/-- Name strings contain no brace at all. -/
theorem bracesOk_of_all_nameChar {l : List Char} (h : ∀ c ∈ l, nameChar c = true) :
    bracesOk l := by
  apply bracesOk_of_not_brace
  intro hmem
  have := h _ hmem
  simp [nameChar] at this

theorem bracesOk_block {inner : List Char} (hin : bracesOk inner)
    (hd : ∃ c cs, inner = c :: cs ∧ nameChar c = true) :
    bracesOk ('\x7b' :: ' ' :: inner) := by
  intro i hi
  match i with
  | 0 =>
    obtain ⟨c, cs, hcons, hc⟩ := hd
    subst hcons
    refine ⟨?_, c, ?_, hc⟩
    · rw [List.getElem?_cons_succ, List.getElem?_cons_zero]
    · rw [show (0:Nat) + 2 = 0 + 1 + 1 from rfl, List.getElem?_cons_succ,
        List.getElem?_cons_succ, List.getElem?_cons_zero]
  | 1 =>
    rw [show (1:Nat) = 0 + 1 from rfl, List.getElem?_cons_succ,
      List.getElem?_cons_zero] at hi
    simp at hi
  | j + 2 =>
    rw [show j + 2 = j + 1 + 1 from rfl, List.getElem?_cons_succ,
      List.getElem?_cons_succ] at hi
    obtain ⟨h1, c, h2, h3⟩ := hin j hi
    refine ⟨?_, c, ?_, h3⟩
    · rw [show j + 2 + 1 = j + 1 + 1 + 1 from rfl, List.getElem?_cons_succ,
        List.getElem?_cons_succ]
      exact h1
    · rw [show j + 2 + 2 = j + 2 + 1 + 1 from rfl, List.getElem?_cons_succ,
        List.getElem?_cons_succ]
      exact h2

/-- A well-formed nonempty selection fragment: starts with a name character
and satisfies the brace invariant. -/
def goodStr (s : String) : Prop :=
  (∃ c cs, s.data = c :: cs ∧ nameChar c = true) ∧ bracesOk s.data

theorem goodStr_ne_empty {s : String} (h : goodStr s) : s ≠ "" := by
  obtain ⟨⟨c, cs, hcons, _⟩, _⟩ := h
  intro he
  rw [he] at hcons
  cases hcons

theorem validName_all {s : String} (h : validName s = true) :
    ∀ c ∈ s.data, nameChar c = true := by
  unfold validName at h
  rw [Bool.and_eq_true] at h
  exact List.all_eq_true.mp h.2

theorem goodStr_of_validName {s : String} (h : validName s = true) : goodStr s := by
  have hall := validName_all h
  have h1 : (!s.data.isEmpty) = true := by
    unfold validName at h
    rw [Bool.and_eq_true] at h
    exact h.1
  cases hs : s.data with
  | nil => rw [hs] at h1; simp at h1
  | cons c cs =>
    refine ⟨⟨c, cs, hs, hall c (by rw [hs]; exact List.mem_cons_self c cs)⟩, ?_⟩
    apply bracesOk_of_all_nameChar
    exact hall

theorem goodStr_blockStr {nm sub : String} (hn : validName nm = true)
    (hs : goodStr sub) : goodStr (nm ++ " \x7b " ++ sub ++ " \x7d") := by
  obtain ⟨⟨c, cs, hcons, hc⟩, hbr⟩ := hs
  obtain ⟨⟨c0, cs0, hcons0, hc0⟩, hbr0⟩ := goodStr_of_validName hn
  have hA : (" \x7b " : String).data = [' ', '\x7b', ' '] := rfl
  have hB : (" \x7d" : String).data = [' ', '\x7d'] := rfl
  have hdata : (nm ++ " \x7b " ++ sub ++ " \x7d").data
      = nm.data ++ ([' '] ++ ('\x7b' :: ' ' :: (sub.data ++ [' ', '\x7d']))) := by
    simp [String.data_append, hA, hB]
  constructor
  · refine ⟨c0, cs0 ++ ([' '] ++ ('\x7b' :: ' ' :: (sub.data ++ [' ', '\x7d']))), ?_, hc0⟩
    rw [hdata, hcons0]
    rfl
  · rw [hdata]
    apply bracesOk_append
    · exact bracesOk_of_all_nameChar (validName_all hn)
    · apply bracesOk_append (bracesOk_of_not_brace (by decide))
      apply bracesOk_block
      · exact bracesOk_append hbr (bracesOk_of_not_brace (by decide))
      · exact ⟨c, cs ++ [' ', '\x7d'], by rw [hcons, List.cons_append], hc⟩

theorem goodStr_joinWith {parts : List String} (h : ∀ s ∈ parts, goodStr s) :
    joinWith " " parts = "" ∨ goodStr (joinWith " " parts) := by
  induction parts with
  | nil => exact Or.inl rfl
  | cons x rest ih =>
    cases rest with
    | nil => exact Or.inr (h x (List.mem_cons_self x []))
    | cons y ys =>
      right
      have hx := h x (List.mem_cons_self x (y :: ys))
      have htail : ∀ s ∈ y :: ys, goodStr s :=
        fun s hs2 => h s (List.mem_cons_of_mem x hs2)
      have hrest : goodStr (joinWith " " (y :: ys)) := by
        rcases ih htail with h0 | hg
        · exfalso
          have hy := htail y (List.mem_cons_self y ys)
          cases ys with
          | nil => exact goodStr_ne_empty hy h0
          | cons z zs =>
            obtain ⟨⟨c, cs, hcons, hc⟩, _⟩ := hy
            have hnil : (joinWith " " (y :: z :: zs)).data = [] := by rw [h0]
            rw [show joinWith " " (y :: z :: zs)
                = y ++ " " ++ joinWith " " (z :: zs) from rfl,
              String.data_append, String.data_append, hcons] at hnil
            cases hnil
        · exact hg
      obtain ⟨⟨c, cs, hcons, hc⟩, hbx⟩ := hx
      obtain ⟨hhd, hbj⟩ := hrest
      rw [show joinWith " " (x :: y :: ys) = x ++ " " ++ joinWith " " (y :: ys) from rfl]
      constructor
      · refine ⟨c, cs ++ (" " : String).data ++ (joinWith " " (y :: ys)).data, ?_, hc⟩
        rw [String.data_append, String.data_append, hcons]
        rfl
      · rw [String.data_append, String.data_append]
        exact bracesOk_append
          (bracesOk_append hbx (bracesOk_of_not_brace (by decide))) hbj

theorem goodStr_fieldEntry {sch : Schema} {rec : TypeRef → String}
    (hsch : validSchema sch = true)
    (hrec : ∀ t, rec t = "" ∨ goodStr (rec t))
    {f : FieldDef} (hf : validName f.name = true) :
    goodStr (fieldEntryWith sch rec f) := by
  unfold fieldEntryWith
  by_cases h1 : isLeafKind (baseKind f.type) = true
  · rw [if_pos h1]; exact goodStr_of_validName hf
  · rw [if_neg h1]
    by_cases h2 : rec f.type ≠ ""
    · rw [if_pos h2]
      exact goodStr_blockStr hf ((hrec f.type).resolve_left h2)
    · rw [if_neg h2]
      cases hft : findType sch (baseName f.type) with
      | none => exact goodStr_of_validName hf
      | some std =>
        dsimp only
        by_cases h3 : std.fields.isEmpty = true
        · rw [if_pos h3]; exact goodStr_of_validName hf
        · rw [if_neg h3]
          cases hsf : std.fields.find?
              (fun sf => !pyStartswith sf.name "__" && isLeafKind (baseKind sf.type)) with
          | none => exact goodStr_of_validName hf
          | some sf =>
            have hstd : std ∈ sch.types := List.mem_of_find?_eq_some hft
            have hsfm : sf ∈ std.fields := List.mem_of_find?_eq_some hsf
            have hvalid : validName sf.name = true :=
              List.all_eq_true.mp (List.all_eq_true.mp hsch std hstd) sf hsfm
            exact goodStr_blockStr hf (goodStr_of_validName hvalid)

theorem goodStr_buildFields {sch : Schema} {rec : TypeRef → String}
    (hsch : validSchema sch = true)
    (hrec : ∀ t, rec t = "" ∨ goodStr (rec t)) :
    ∀ (fs : List FieldDef), (∀ f ∈ fs, validName f.name = true) →
      ∀ s ∈ buildFieldsWith sch rec fs, goodStr s := by
  intro fs
  induction fs with
  | nil => intro _ s hs; cases hs
  | cons f rest ih =>
    intro hv s hs
    unfold buildFieldsWith at hs
    by_cases hskip : pyStartswith f.name "__" = true
    · rw [if_pos hskip] at hs
      exact ih (fun g hg => hv g (List.mem_cons_of_mem f hg)) s hs
    · rw [if_neg hskip] at hs
      rcases List.mem_cons.mp hs with h1 | h2
      · subst h1
        exact goodStr_fieldEntry hsch hrec (hv f (List.mem_cons_self f rest))
      · exact ih (fun g hg => hv g (List.mem_cons_of_mem f hg)) s h2

theorem buildSelAux_good {sch : Schema} (hs : validSchema sch = true) :
    ∀ (n : Nat) (ft : TypeRef),
      buildSelAux sch n ft = "" ∨ goodStr (buildSelAux sch n ft) := by
  intro n
  induction n with
  | zero => intro ft; exact Or.inl rfl
  | succ m ih =>
    intro ft
    rw [show buildSelAux sch (m + 1) ft
        = (if isLeafKind (baseKind ft) then ""
          else
            match findType sch (baseName ft) with
            | none => ""
            | some td =>
              if td.fields.isEmpty then ""
              else joinWith " "
                (buildFieldsWith sch (fun t2 => buildSelAux sch m t2) td.fields))
      from rfl]
    by_cases h1 : isLeafKind (baseKind ft) = true
    · rw [if_pos h1]; exact Or.inl rfl
    · rw [if_neg h1]
      cases hft : findType sch (baseName ft) with
      | none => exact Or.inl rfl
      | some td =>
        dsimp only
        by_cases h2 : td.fields.isEmpty = true
        · rw [if_pos h2]; exact Or.inl rfl
        · rw [if_neg h2]
          apply goodStr_joinWith
          apply goodStr_buildFields hs ih td.fields
          intro f hfm
          have htd : td ∈ sch.types := List.mem_of_find?_eq_some hft
          exact List.all_eq_true.mp (List.all_eq_true.mp hs td htd) f hfm

theorem noEmptyBlock_of_bracesOk {l : List Char} (h : bracesOk l) :
    ∀ (a : List Char) (n : Nat) (b : List Char),
      l ≠ a ++ '\x7b' :: (List.replicate n ' ' ++ '\x7d' :: b) := by
  intro a n b heq
  subst heq
  have h0 : (a ++ '\x7b' :: (List.replicate n ' ' ++ '\x7d' :: b))[a.length]?
      = some '\x7b' := by
    rw [List.getElem?_append_right (Nat.le_refl a.length), Nat.sub_self,
      List.getElem?_cons_zero]
  obtain ⟨h1, c, h2, h3⟩ := h a.length h0
  have e1 : (a ++ '\x7b' :: (List.replicate n ' ' ++ '\x7d' :: b))[a.length + 1]?
      = (List.replicate n ' ' ++ '\x7d' :: b)[0]? := by
    rw [List.getElem?_append_right (by omega),
      show a.length + 1 - a.length = 0 + 1 from by omega, List.getElem?_cons_succ]
  have e2 : (a ++ '\x7b' :: (List.replicate n ' ' ++ '\x7d' :: b))[a.length + 2]?
      = (List.replicate n ' ' ++ '\x7d' :: b)[1]? := by
    rw [List.getElem?_append_right (by omega),
      show a.length + 2 - a.length = 1 + 1 from by omega, List.getElem?_cons_succ]
  rw [e1] at h1
  rw [e2] at h2
  match n with
  | 0 =>
    rw [List.replicate_zero, List.nil_append, List.getElem?_cons_zero] at h1
    simp at h1
  | 1 =>
    rw [show List.replicate 1 ' ' = [' '] from rfl, List.singleton_append,
      show (1:Nat) = 0 + 1 from rfl, List.getElem?_cons_succ,
      List.getElem?_cons_zero] at h2
    have hc : c = '\x7d' := (Option.some_inj.mp h2).symm
    rw [hc] at h3
    simp [nameChar] at h3
  | m + 2 =>
    rw [List.replicate_succ, List.replicate_succ, List.cons_append,
      List.cons_append, show (1:Nat) = 0 + 1 from rfl, List.getElem?_cons_succ,
      List.getElem?_cons_zero] at h2
    have hc : c = ' ' := (Option.some_inj.mp h2).symm
    rw [hc] at h3
    simp [nameChar] at h3

/-- Claim C6: for every schema (with legal GraphQL field names) and every
field type, the bounded selection-set build stops at the fixed depth bound 3
(it is a total function of the remaining fuel, and at depth 3 or deeper it
returns the empty string), and the text it produces never contains an empty
brace block, i.e. no opening brace followed by only spaces and a closing
brace. -/
theorem selection_build_bounded_no_empty_block (sch : Schema)
    (hs : validSchema sch = true) (ft : TypeRef) (depth : Nat) :
    (3 ≤ depth → buildSelectionSet sch ft depth = "") ∧
    ∀ (a : List Char) (n : Nat) (b : List Char),
      (buildSelectionSet sch ft depth).data
        ≠ a ++ '\x7b' :: (List.replicate n ' ' ++ '\x7d' :: b) := by
  constructor
  · intro h3
    unfold buildSelectionSet
    rw [show 3 - depth = 0 from by omega]
    rfl
  · intro a b n heq
    rcases buildSelAux_good hs (3 - depth) ft with h0 | hg
    · unfold buildSelectionSet at heq
      rw [h0] at heq
      have : ([] : List Char) = a ++ '\x7b' :: (List.replicate b ' ' ++ '\x7d' :: n) := heq
      cases a with
      | nil => cases this
      | cons x xs => cases this
    · exact noEmptyBlock_of_bracesOk hg.2 a b n heq

/-- The User object type of the sample schema: scalar id and name plus a
self-referential friend field, exercising the cyclic-schema depth bound. -/
def typeUser : TypeDef :=
  { kind := "OBJECT", name := "User"
    fields := [{ name := "id", args := [], type := .named "SCALAR" "ID" },
      { name := "name", args := [], type := .named "SCALAR" "String" },
      { name := "friend", args := [], type := .named "OBJECT" "User" }] }

/-- The Query root type of the sample schema. -/
def typeQueryC6 : TypeDef :=
  { kind := "OBJECT", name := "Query"
    fields := [{ name := "user", args := [], type := .named "OBJECT" "User" }] }

/-- A cyclic sample schema for the selection-set claims. -/
def schemaC6 : Schema :=
  { queryType := some "Query", mutationType := none, subscriptionType := none
    types := [typeQueryC6, typeUser] }

theorem selection_build_bounded_no_empty_block_witness :
    validSchema schemaC6 = true ∧
    buildSelectionSet schemaC6 (.named "OBJECT" "User") 3 = "" ∧
    ∀ (a : List Char) (n : Nat) (b : List Char),
      (buildSelectionSet schemaC6 (.named "OBJECT" "User") 0).data
        ≠ a ++ '\x7b' :: (List.replicate n ' ' ++ '\x7d' :: b) :=
  ⟨by decide,
    (selection_build_bounded_no_empty_block schemaC6 (by decide)
      (.named "OBJECT" "User") 3).1 (by omega),
    (selection_build_bounded_no_empty_block schemaC6 (by decide)
      (.named "OBJECT" "User") 0).2⟩
